import Mathlib

/-!
Verification development for the StopTLS HTTP downgrade proxy
(src/stoptls/web/__init__.py, with src/stoptls/web.py an older shadowed
duplicate: the `stoptls.web` package takes import precedence over the
module of the same name).

The embedding below translates the rewrite pipeline into Lean:
pure functions for the URL/text pattern engine, explicit state passing
for the client state cache, and `Except` results for Python exceptions.
The `stoptls.cache` and `stoptls.web.regex` modules are imported by the
source but are not part of src/; definitions for them are modelled from
the spec and marked as such in their doc comments.
-/

/-- Python single-quote character, used by `re.Match.__repr__`. -/
def pySQ : String := String.singleton (Char.ofNat 39)

/-- Lower-case a string character-wise (Python `str.lower` on ASCII). -/
def lowerStr (s : String) : String := String.mk (s.toList.map Char.toLower)

/-- Split a character list at the first occurrence of `sep`
(Python `str.split(sep, 1)` / `str.find`). -/
def splitFirst (sep : Char) : List Char → Option (List Char × List Char)
  | [] => none
  | c :: rest =>
    if c = sep then some ([], rest)
    else (splitFirst sep rest).map (fun p => (c :: p.1, p.2))

/-- Characters allowed in a URL scheme by `urllib.parse` (letters, digits, `+-.`). -/
def schemeChar (c : Char) : Bool := c.isAlphanum || c = '+' || c = '-' || c = '.'

/-- Result of `urllib.parse.urlsplit`. -/
structure SplitResult where
  scheme : String
  netloc : String
  path : String
  query : String
  fragment : String
  deriving Repr, DecidableEq

/-- Character that ends the netloc component in `urllib.parse.urlsplit`. -/
def netlocEnd (c : Char) : Bool := c = '/' || c = '?' || c = '#'

/-- Faithful model of `urllib.parse.urlsplit`: scheme up to a first `:`
(only when the prefix is a well-formed scheme starting with a letter,
lower-cased on extraction), netloc after `//` up to `/?#`, then the
fragment is split off at the first `#` and the query at the first `?`. -/
def urlsplit (url : String) : SplitResult :=
  let l0 := url.toList
  let sl :=
    match splitFirst ':' l0 with
    | some (before, after) =>
      if before ≠ [] ∧ (before.headD ' ').isAlpha ∧ before.all schemeChar then
        (before.map Char.toLower, after)
      else ([], l0)
    | none => ([], l0)
  let scheme := sl.1
  let nl :=
    match sl.2 with
    | '/' :: '/' :: rest => (rest.takeWhile (fun c => ¬ netlocEnd c), rest.dropWhile (fun c => ¬ netlocEnd c))
    | other => ([], other)
  let netloc := nl.1
  let fr :=
    match splitFirst '#' nl.2 with
    | some (before, after) => (before, after)
    | none => (nl.2, [])
  let qu :=
    match splitFirst '?' fr.1 with
    | some (before, after) => (before, after)
    | none => (fr.1, [])
  ⟨String.mk scheme, String.mk netloc, String.mk qu.1, String.mk qu.2, String.mk fr.2⟩

/-- Python `str.startswith`, on the character-list view (kernel-reducible,
unlike `String.startsWith`). -/
def pyStartsWith (s pre : String) : Bool := pre.toList.isPrefixOf s.toList

/-- Faithful model of `urllib.parse.urlunsplit`. -/
def urlunsplit (scheme netloc path query fragment : String) : String :=
  let url := path
  let url :=
    if netloc ≠ "" ∨ (url ≠ "" ∧ pyStartsWith url "//") then
      "//" ++ netloc ++ (if url ≠ "" ∧ ¬ pyStartsWith url "/" then "/" ++ url else url)
    else url
  let url := if scheme ≠ "" then scheme ++ ":" ++ url else url
  let url := if query ≠ "" then url ++ "?" ++ query else url
  if fragment ≠ "" then url ++ "#" ++ fragment else url

/-- The normalized path+query of a split URL: path, then `?query` when the
query is nonempty; scheme, host and fragment are dropped (spec section 3). -/
def SplitResult.pathQuery (p : SplitResult) : String :=
  p.path ++ (if p.query = "" then "" else "?" ++ p.query)

/-- Modelled from the spec: the source imports `InMemoryCache` from
`stoptls.cache`, a module that is not under src/. Spec sections 3 and 4.2:
per (client, host) write-once-add-only sets of stripped path+query strings
(normalized: no scheme, no host, no fragment) and of allowed cookie names;
lookups are exact string matches and a miss is never an error. -/
structure InMemoryCache where
  urls : List (String × String × String)
  cookies : List (String × String × String)
  deriving Repr, DecidableEq

def InMemoryCache.empty : InMemoryCache := ⟨[], []⟩

/-- Modelled from the spec: `hasStrippedPath(client, host, pathAndQuery)`,
an exact-match membership test (`cache.has_url` in the source). -/
def InMemoryCache.has_url (c : InMemoryCache) (client host rel : String) : Bool :=
  c.urls.any (fun e => decide (e = (client, host, rel)))

/-- Modelled from the spec: `addStrippedPath` (`cache.add_url` in the source,
called either with an absolute URL, whose host and path+query are extracted,
or with a relative URL together with an explicit host). The stored key is
the normalized path+query. -/
def InMemoryCache.add_url (c : InMemoryCache) (client url : String) (host : Option String) : InMemoryCache :=
  let p := urlsplit url
  let h := match host with | some h => h | none => p.netloc
  { c with urls := (client, h, p.pathQuery) :: c.urls }

/-- Modelled from the spec: `hasAllowedCookie` (`cache.has_cookie`). -/
def InMemoryCache.has_cookie (c : InMemoryCache) (client host name : String) : Bool :=
  c.cookies.any (fun e => decide (e = (client, host, name)))

/-- Modelled from the spec: `addAllowedCookie` (`cache.add_cookie`). -/
def InMemoryCache.add_cookie (c : InMemoryCache) (client host name : String) : InMemoryCache :=
  { c with cookies := (client, host, name) :: c.cookies }

/-- Modelled from the spec: `cache.has_domain`, true when any stripped path
is recorded for the (client, host) pair. -/
def InMemoryCache.has_domain (c : InMemoryCache) (client host : String) : Bool :=
  c.urls.any (fun e => decide (e.1 = client) && decide (e.2.1 = host))

/-! ### The URL/text pattern engine

The compiled patterns live in `stoptls.web.regex`, which is not under src/.
They are modelled from the spec (section 4.1), with the character class
mirrored from the sibling definition `SECURE_URL` in src/stoptls/web.py. -/

/-- Modelled from the spec: the allowed URL character set of the pattern
engine, mirrored from the class in src/stoptls/web.py line 23. -/
def allowedUrlChar (c : Char) : Bool :=
  c.isAlpha || c.isDigit || ".?/-#=&;%:~_$@+()".toList.contains c

/-- Longest prefix of allowed URL characters, and the remainder
(the greedy `[...]+` run of the patterns). -/
def takeAllowed : List Char → List Char × List Char
  | [] => ([], [])
  | c :: rest =>
    if allowedUrlChar c then
      let p := takeAllowed rest
      (c :: p.1, p.2)
    else ([], c :: rest)

/-- Modelled from the spec: `regex.SECURE_URL` as a full match over a whole
attribute value: a case-insensitive `https` scheme, the `://` delimiter and a
nonempty run of allowed URL characters covering the rest of the string. -/
def secureFullmatch (v : String) : Bool :=
  match v.toList with
  | h1 :: h2 :: h3 :: h4 :: h5 :: ':' :: '/' :: '/' :: rest =>
    decide ([h1, h2, h3, h4, h5].map Char.toLower = "https".toList) &&
      (¬ rest.isEmpty) && rest.all allowedUrlChar
  | _ => false

/-- Modelled from the spec: `regex.RELATIVE_URL` as a full match: a single
leading path separator (not the scheme-relative `//`) followed by a
nonempty run of allowed URL characters covering the rest of the string. -/
def relativeFullmatch (v : String) : Bool :=
  match v.toList with
  | '/' :: c :: rest => decide (c ≠ '/') && allowedUrlChar c && rest.all allowedUrlChar
  | _ => false

/-- Modelled from the spec: `regex.UNSECURE_URL` as a full match: the
insecure twin of `secureFullmatch`. -/
def unsecureFullmatch (v : String) : Bool :=
  match v.toList with
  | h1 :: h2 :: h3 :: h4 :: ':' :: '/' :: '/' :: rest =>
    decide ([h1, h2, h3, h4].map Char.toLower = "http".toList) &&
      (¬ rest.isEmpty) && rest.all allowedUrlChar
  | _ => false

/-- A secure-absolute match attempt at the head of the text, for the
scanning `sub` pass: returns the matched text (group 0), the captured
remainder (group 1, from `:` onwards, so that prepending `http` swaps the
scheme) and the rest of the input. -/
def secureMatchAt : List Char → Option (List Char × List Char × List Char)
  | h1 :: h2 :: h3 :: h4 :: h5 :: ':' :: '/' :: '/' :: rest =>
    if [h1, h2, h3, h4, h5].map Char.toLower = "https".toList then
      let p := takeAllowed rest
      if p.1.isEmpty then none
      else some ([h1, h2, h3, h4, h5] ++ ':' :: '/' :: '/' :: p.1, ':' :: '/' :: '/' :: p.1, p.2)
    else none
  | _ => none

/-- A relative match attempt at the head of the text, for the scanning
`sub` pass. `prev` is the character just before the current position;
spec section 4.1 excludes matches inside already-secure or already-absolute
forms, which is modelled as: the separator must not be immediately preceded
by an allowed URL character. Returns the matched text and the rest. -/
def relativeMatchAt (prev : Option Char) : List Char → Option (List Char × List Char)
  | '/' :: c :: rest =>
    if (prev.map allowedUrlChar).getD false then none
    else if c = '/' then none
    else if allowedUrlChar c then
      let p := takeAllowed rest
      some ('/' :: c :: p.1, p.2)
    else none
  | _ => none

/-- Does the relative pattern match anywhere in the remaining text
(with `prev` the character before the current position)? -/
def relativeScan (prev : Option Char) : List Char → Bool
  | [] => false
  | c :: rest =>
    match relativeMatchAt prev (c :: rest) with
    | some _ => true
    | none => relativeScan (some c) rest

/-- Does the secure-absolute pattern match anywhere in the remaining text? -/
def secureScan : List Char → Bool
  | [] => false
  | c :: rest =>
    match secureMatchAt (c :: rest) with
    | some _ => true
    | none => secureScan rest

/-- Python `repr` of a short string of safe characters: single quotes
around the text. -/
def pyStrRepr (s : String) : String := pySQ ++ s ++ pySQ

/-- CPython `re.Match.__repr__`: span and the `%.50r`-formatted match. -/
def matchRepr (a b : Nat) (s : String) : String :=
  "<re.Match object; span=(" ++ toString a ++ ", " ++ toString b ++
    "), match=" ++ String.mk ((pyStrRepr s).toList.take 50) ++ ">"

/-! ### Header stripping (src/stoptls/web/__init__.py lines 10-29) -/

inductive HeaderType where
  | request
  | response
  deriving Repr, DecidableEq

/-- `HEADER_BLACKLIST` from the source. -/
def HEADER_BLACKLIST : HeaderType → List String
  | .request => ["Upgrade-Insecure-Requests", "Host"]
  | .response =>
    ["Strict-Transport-Security", "Content-Length", "Content-Encoding",
     "Transfer-Encoding", "Set-Cookie"]

/-- Python dict lookup `d.get(k)` / `d[k]` on the association-list model:
the value at the first matching key. -/
def lookupKey (l : List (String × String)) (k : String) : Option String :=
  match l with
  | [] => none
  | p :: rest => if p.1 = k then some p.2 else lookupKey rest k

/-- Python `dict.pop(key, None)`: remove the key from the mapping. -/
def popKey (headers : List (String × String)) (k : String) : List (String × String) :=
  match headers with
  | [] => []
  | p :: rest => if p.1 = k then popKey rest k else p :: popKey rest k

/-- `strip_headers(headers, type_)` from the source: pop every blacklisted
header for the given type and return the mapping. -/
def strip_headers (headers : List (String × String)) (type_ : HeaderType) : List (String × String) :=
  (HEADER_BLACKLIST type_).foldl popKey headers

/-! ### Shared text rewrite (src/stoptls/web/__init__.py lines 191-203)

`strip_text` runs `regex.RELATIVE_URL.sub(relative2absolute_url, body)`
first and `regex.SECURE_URL.sub(generate_unsecure_replacement, ...)` second.
Python `re.sub` scans the input left to right, replaces each nonoverlapping
match and resumes after it; replacement callbacks receive the match object.
`relative2absolute_url` registers the match in the cache and returns
`'http://{}{}'.format(host, relative_url)` where `relative_url` is the
match OBJECT, so `str.format` interpolates its `repr`, not the matched
text. `generate_unsecure_replacement` registers group 0 and returns
`'http' + group(1)`. -/

/-- The relative-pattern `sub` pass. `pos` is the absolute position in the
original text (match spans refer to it), `prev` the previous original
character. Fuel is the remaining text length; every step consumes at least
one character. -/
def relativeSub (client host : String) :
    Nat → Nat → Option Char → List Char → InMemoryCache → List Char × InMemoryCache
  | 0, _, _, s, cache => (s, cache)
  | fuel + 1, pos, prev, s, cache =>
    match relativeMatchAt prev s with
    | some (m, rest) =>
      let cache2 := cache.add_url client (String.mk m) (some host)
      let repl := ("http://" ++ host ++ matchRepr pos (pos + m.length) (String.mk m)).toList
      let r := relativeSub client host fuel (pos + m.length) (some (m.getLastD '/')) rest cache2
      (repl ++ r.1, r.2)
    | none =>
      match s with
      | [] => ([], cache)
      | c :: rest =>
        let r := relativeSub client host fuel (pos + 1) (some c) rest cache
        (c :: r.1, r.2)

/-- The secure-absolute-pattern `sub` pass: each match of group 0 is
registered in the cache and replaced by `http` followed by group 1. -/
def secureSub (client : String) :
    Nat → List Char → InMemoryCache → List Char × InMemoryCache
  | 0, s, cache => (s, cache)
  | fuel + 1, s, cache =>
    match secureMatchAt s with
    | some (g0, g1, rest) =>
      let cache2 := cache.add_url client (String.mk g0) none
      let r := secureSub client fuel rest cache2
      (("http".toList ++ g1) ++ r.1, r.2)
    | none =>
      match s with
      | [] => ([], cache)
      | c :: rest =>
        let r := secureSub client fuel rest cache
        (c :: r.1, r.2)

/-- `strip_text(body, remote_ip, host)`: the relative pass, then the
secure-absolute pass on its output. -/
def strip_text (body : String) (remote_ip host : String) (cache : InMemoryCache) :
    String × InMemoryCache :=
  let canon := relativeSub remote_ip host body.toList.length 0 none body.toList cache
  let out := secureSub remote_ip canon.1.length canon.1 canon.2
  (String.mk out.1, out.2)

/-! ### Request transformer (src/stoptls/web/__init__.py lines 47-91) -/

/-- Python exceptions that the embedded pipeline can raise. -/
inductive PyError where
  | attributeError
  | unicodeDecodeError
  deriving Repr, DecidableEq

/-- The inbound (client) request as the source reads it: aiohttp exposes
`remote`, `host`, `path`, the query multidict, `url.fragment`, `method`,
`headers`, `cookies` and body presence. -/
structure InboundRequest where
  remote : String
  host : String
  path : String
  query : List (String × String)
  fragment : String
  method : String
  headers : List (String × String)
  cookies : List (String × String)
  hasBody : Bool
  deriving Repr, DecidableEq

/-- `request.rel_url.human_repr()`: the path, plus `?` and the query string
when a query is present. -/
def InboundRequest.relUrl (req : InboundRequest) : String :=
  req.path ++
    (if req.query.isEmpty then ""
     else "?" ++ String.intercalate "&" (req.query.map (fun p => p.1 ++ "=" ++ p.2)))

/-- The upstream call handed to `self.session.request(...)`. -/
structure UpstreamCall where
  method : String
  url : String
  headers : List (String × String)
  params : List (String × String)
  hasData : Bool
  allowRedirects : Bool
  deriving Repr, DecidableEq

/-- Python dict assignment `d[k] = v`: replace the value when the key is
present, otherwise append the new pair. -/
def setKey (headers : List (String × String)) (k v : String) : List (String × String) :=
  if headers.any (fun p => decide (p.1 = k)) then
    headers.map (fun p => if p.1 = k then (k, v) else p)
  else headers ++ [(k, v)]

/-- `filter_incoming_cookies(cookies, remote_ip, host)` (lines 226-231):
emit `name=value` for exactly the cookies whose name the cache has recorded
for this client and host; every other cookie is dropped, and no branch can
raise. -/
def filter_incoming_cookies (cache : InMemoryCache) (cookies : List (String × String))
    (remote_ip host : String) : List String :=
  (cookies.filter (fun p => cache.has_cookie remote_ip host p.1)).map
    (fun p => p.1 ++ "=" ++ p.2)

/-- `unstrip_query_params(query_params, remote_ip)` (lines 130-145): any
query value that fully matches the insecure-URL pattern and whose
path+query (rebuilt with `urlunsplit`, fragment included) is cached for its
host is rewritten back to the secure scheme. -/
def unstrip_query_params (cache : InMemoryCache) (query_params : List (String × String))
    (remote_ip : String) : List (String × String) :=
  query_params.map (fun p =>
    if unsecureFullmatch p.2 then
      let u := urlsplit p.2
      if cache.has_url remote_ip u.netloc (urlunsplit "" "" u.path u.query u.fragment) then
        (p.1, urlunsplit "https" u.netloc u.path u.query u.fragment)
      else p
    else p)

/-- The scheme chosen at lines 48-54: `https` only on a cache hit for the
normalized path+query, otherwise `http`. -/
def chooseScheme (cache : InMemoryCache) (req : InboundRequest) : String :=
  if cache.has_url req.remote req.host req.relUrl then "https" else "http"

/-- `proxy_request(request)` (lines 47-91). The `Origin` branch looks the
header up under `try/except KeyError`; when the header is present the code
evaluates `self.cache.has_domain(request.remote_ip, ...)`, but aiohttp
requests expose `remote`, not `remote_ip`, so the attribute access raises
`AttributeError`, which the `except KeyError` clause does not catch. -/
def proxy_request (cache : InMemoryCache) (request : InboundRequest) :
    Except PyError UpstreamCall :=
  let scheme := chooseScheme cache request
  let query_params := unstrip_query_params cache request.query request.remote
  let headers := strip_headers request.headers .request
  match lookupKey headers "Origin" with
  | some originValue =>
    let parsed_origin := urlsplit originValue
    let _ := parsed_origin
    Except.error .attributeError
  | none =>
    let cookies := filter_incoming_cookies cache request.cookies request.remote request.host
    let headers := setKey headers "Cookie" (String.intercalate "; " cookies)
    let url := urlunsplit scheme request.host request.path "" request.fragment
    Except.ok
      { method := lowerStr request.method
        url := url
        headers := headers
        params := query_params
        hasData := request.hasBody
        allowRedirects := false }

/-! ### The upstream session (external collaborator, spec section 6) -/

/-- The upstream response as the source reads it from aiohttp:
status, headers, the declared content type and charset, the raw body
bytes, the cookies set by the origin (name, value, directives) and the
final URL's host. -/
structure UpstreamResponse where
  status : Nat
  headers : List (String × String)
  contentType : String
  charset : String
  bodyBytes : List Nat
  cookies : List (String × String × List (String × String))
  urlHost : String
  deriving Repr, DecidableEq

/-- Redirect statuses an HTTP client follows automatically. -/
def isRedirectStatus (n : Nat) : Bool :=
  n = 301 || n = 302 || n = 303 || n = 307 || n = 308

/-- Model of `aiohttp.ClientSession.request`: the origin maps a URL to a
response; when `allow_redirects` is set and the response is a redirect the
client re-issues the request at the Location target, otherwise the first
response is returned as is. -/
def sessionRequest (origin : String → UpstreamResponse) :
    Nat → UpstreamCall → UpstreamResponse
  | 0, call => origin call.url
  | fuel + 1, call =>
    let r := origin call.url
    if call.allowRedirects && isRedirectStatus r.status then
      match lookupKey r.headers "Location" with
      | some loc => sessionRequest origin fuel { call with url := loc }
      | none => r
    else r

/-! ### HTML body rewrite (src/stoptls/web/__init__.py lines 147-189)

The markup parser is an external collaborator (spec section 6): the
embedding works on the parsed tree, a list of tags in document order, each
carrying its name, its attribute mapping and its optional text content
(`tag.string`). `soup.find_all(pred)` calls the predicate once per tag in
document order; `has_secure_url_attr` records, per tag, the names of the
attributes whose value fully matches the secure-absolute or the relative
pattern (registering each in the cache), and the loop over `secure_tags`
rewrites exactly those attributes. -/

structure Tag where
  name : String
  attrs : List (String × String)
  text : Option String
  deriving Repr, DecidableEq

/-- One step of `has_secure_url_attr`'s attribute loop: the collected
`url_attrs` names and the cache after the registrations. -/
def scanAttrs (remote_ip host : String) :
    List (String × String) → InMemoryCache → List String × InMemoryCache
  | [], cache => ([], cache)
  | (a, v) :: rest, cache =>
    if secureFullmatch v then
      let r := scanAttrs remote_ip host rest (cache.add_url remote_ip v none)
      (a :: r.1, r.2)
    else if relativeFullmatch v then
      let r := scanAttrs remote_ip host rest (cache.add_url remote_ip v (some host))
      (a :: r.1, r.2)
    else scanAttrs remote_ip host rest cache

/-- The names `has_secure_url_attr` collects for a tag (independent of the
cache it threads). -/
def urlAttrNames : List (String × String) → List String
  | [] => []
  | (a, v) :: rest =>
    if secureFullmatch v then a :: urlAttrNames rest
    else if relativeFullmatch v then a :: urlAttrNames rest
    else urlAttrNames rest

/-- The attribute rewrite of the `secure_tags` loop (lines 174-181): a
value starting with `/` becomes absolute and insecure on the current host;
otherwise the split URL is reassembled with the `http` scheme. -/
def rewriteVal (host v : String) : String :=
  if pyStartsWith v "/" then "http://" ++ host ++ v
  else
    let p := urlsplit v
    urlunsplit "http" p.netloc p.path p.query p.fragment

/-- Apply the attribute rewrite to each collected attribute name of a tag
(`tag[attr] = ...` on a dict replaces the value at the key). -/
def rewriteTag (host : String) (t : Tag) (names : List String) : Tag :=
  names.foldl (fun t a =>
    match lookupKey t.attrs a with
    | some v => { t with attrs := setKey t.attrs a (rewriteVal host v) }
    | none => t) t

/-- The `find_all(has_secure_url_attr)` traversal: per-tag collected
attribute names, with the cache registrations threaded in document order. -/
def findSecureTags (remote_ip host : String) :
    List Tag → InMemoryCache → List (Tag × List String) × InMemoryCache
  | [], cache => ([], cache)
  | t :: ts, cache =>
    let r1 := scanAttrs remote_ip host t.attrs cache
    let r2 := findSecureTags remote_ip host ts r1.2
    ((t, r1.1) :: r2.1, r2.2)

/-- Does `pat` occur as a contiguous run anywhere in the list (regex
`search` of a literal)? -/
def containsRun (pat : List Char) : List Char → Bool
  | [] => pat.isEmpty
  | c :: rest => pat.isPrefixOf (c :: rest) || containsRun pat rest

/-- Modelled from the spec: `regex.CSS_OR_SCRIPT`, a pattern that
`find_all` applies to tag names by regex search; it matches the names of
style and script elements. -/
def cssOrScriptName (name : String) : Bool :=
  containsRun "style".toList name.toList || containsRun "script".toList name.toList

/-- The `<style>`/`<script>` text pass on one tag (lines 184-187): when
such a tag has a nonempty string, it is replaced by `strip_text` of it. -/
def stripScriptTag (remote_ip host : String) (t : Tag) (cache : InMemoryCache) :
    Tag × InMemoryCache :=
  if cssOrScriptName t.name then
    match t.text with
    | some s =>
      if s ≠ "" then
        let r1 := strip_text s remote_ip host cache
        ({ t with text := some r1.1 }, r1.2)
      else (t, cache)
    | none => (t, cache)
  else (t, cache)

/-- The `find_all(regex.CSS_OR_SCRIPT)` loop over the document. -/
def stripScriptBlocks (remote_ip host : String) :
    List Tag → InMemoryCache → List Tag × InMemoryCache
  | [], cache => ([], cache)
  | t :: ts, cache =>
    let r1 := stripScriptTag remote_ip host t cache
    let r2 := stripScriptBlocks remote_ip host ts r1.2
    (r1.1 :: r2.1, r2.2)

/-- `strip_html_body(body, remote_ip, host)` on the parsed tree: collect
and register matching attributes, rewrite them, then rewrite style/script
text blocks. -/
def strip_html_body (doc : List Tag) (remote_ip host : String) (cache : InMemoryCache) :
    List Tag × InMemoryCache :=
  let r1 := findSecureTags remote_ip host doc cache
  let doc2 := r1.1.map (fun p => rewriteTag host p.1 p.2)
  stripScriptBlocks remote_ip host doc2 r1.2

/-! ### Cookie sanitizer for origin cookies (lines 205-224) -/

/-- The directive names `http.cookies.Morsel.isReservedKey` accepts
(lower-cased reserved keys of `SimpleCookie`). -/
def reservedCookieKeys : List String :=
  ["expires", "path", "comment", "domain", "max-age", "secure", "version",
   "httponly", "samesite"]

/-- Replace `-` by `_` in a directive name (`directive_name.replace('-', '_')`). -/
def dashToUnderscore (s : String) : String :=
  String.mk (s.toList.map (fun c => if c = '-' then '_' else c))

/-- `strip_cookies(cookies, remote_ip, host)` (lines 205-224): register
each cookie name, drop the `secure` and `comment` directives, keep only
nonempty reserved directives with separators normalized, and yield the
(name, value, directives) triples in order. -/
def strip_cookies (remote_ip host : String) :
    List (String × String × List (String × String)) → InMemoryCache →
    List (String × String × List (String × String)) × InMemoryCache
  | [], cache => ([], cache)
  | (name, value, directives) :: rest, cache =>
    let cache2 := cache.add_cookie remote_ip host name
    let directives2 := directives.filter (fun d => d.1 ≠ "secure" ∧ d.1 ≠ "comment")
    let stripped :=
      (directives2.filter (fun d => d.2 ≠ "" ∧ reservedCookieKeys.contains (lowerStr d.1))).map
        (fun d => (dashToUnderscore d.1, d.2))
    let r := strip_cookies remote_ip host rest cache2
    ((name, value, stripped) :: r.1, r.2)

/-! ### Body decoding and the response transformer (lines 93-128) -/

/-- Strict UTF-8 decoding of a byte sequence (Python `bytes.decode('utf-8')`),
returning `none` exactly when CPython would raise `UnicodeDecodeError`. -/
def utf8DecodeAux : Nat → List Nat → Option (List Char)
  | 0, [] => some []
  | 0, _ :: _ => none
  | _ + 1, [] => some []
  | fuel + 1, b :: rest =>
    if b < 0x80 then
      (utf8DecodeAux fuel rest).map (fun cs => Char.ofNat b :: cs)
    else if 0xC2 ≤ b ∧ b ≤ 0xDF then
      match rest with
      | c1 :: rest2 =>
        if 0x80 ≤ c1 ∧ c1 ≤ 0xBF then
          (utf8DecodeAux fuel rest2).map
            (fun cs => Char.ofNat ((b - 0xC0) * 0x40 + (c1 - 0x80)) :: cs)
        else none
      | [] => none
    else if 0xE0 ≤ b ∧ b ≤ 0xEF then
      match rest with
      | c1 :: c2 :: rest2 =>
        let lo1 := if b = 0xE0 then 0xA0 else 0x80
        let hi1 := if b = 0xED then 0x9F else 0xBF
        if (lo1 ≤ c1 ∧ c1 ≤ hi1) ∧ (0x80 ≤ c2 ∧ c2 ≤ 0xBF) then
          (utf8DecodeAux fuel rest2).map
            (fun cs =>
              Char.ofNat ((b - 0xE0) * 0x1000 + (c1 - 0x80) * 0x40 + (c2 - 0x80)) :: cs)
        else none
      | _ => none
    else if 0xF0 ≤ b ∧ b ≤ 0xF4 then
      match rest with
      | c1 :: c2 :: c3 :: rest2 =>
        let lo1 := if b = 0xF0 then 0x90 else 0x80
        let hi1 := if b = 0xF4 then 0x8F else 0xBF
        if (lo1 ≤ c1 ∧ c1 ≤ hi1) ∧ (0x80 ≤ c2 ∧ c2 ≤ 0xBF) ∧ (0x80 ≤ c3 ∧ c3 ≤ 0xBF) then
          (utf8DecodeAux fuel rest2).map
            (fun cs =>
              Char.ofNat ((b - 0xF0) * 0x40000 + (c1 - 0x80) * 0x1000 +
                (c2 - 0x80) * 0x40 + (c3 - 0x80)) :: cs)
        else none
      | _ => none
    else none

def utf8Decode (bytes : List Nat) : Option String :=
  (utf8DecodeAux bytes.length bytes).map String.mk

/-- Python `bytes.decode('ascii')`: only bytes below 128. -/
def asciiDecode (bytes : List Nat) : Option String :=
  if bytes.all (fun b => b < 0x80) then some (String.mk (bytes.map Char.ofNat))
  else none

/-- `aiohttp.ClientResponse.text()`: decode the raw body using the
response's charset ("ascii" and "utf-8" are the charsets modelled; any
other declared charset is treated as aiohttp's utf-8 default). Returns
`none` where the Python call raises `UnicodeDecodeError`. -/
def responseText (r : UpstreamResponse) : Option String :=
  if r.charset = "ascii" then asciiDecode r.bodyBytes else utf8Decode r.bodyBytes

/-- The body delivered to the client: decoded-and-rewritten text, or the
raw bytes passed through. -/
inductive BodyData where
  | text (s : String)
  | raw (bytes : List Nat)
  deriving Repr, DecidableEq

/-- The client-facing response assembled by `strip_response`:
`aiohttp.web.Response(body=..., status=..., headers=...)` plus the cookies
set through `set_cookie`. -/
structure ClientResponse where
  status : Nat
  headers : List (String × String)
  body : BodyData
  setCookies : List (String × String × List (String × String))
  deriving Repr, DecidableEq

/-- Replace every occurrence of `pat` by `rep`, scanning left to right
(Python `str.replace`). -/
def replaceAll (pat rep : List Char) : Nat → List Char → List Char
  | 0, s => s
  | _ + 1, [] => []
  | fuel + 1, c :: rest =>
    if pat ≠ [] ∧ pat.isPrefixOf (c :: rest) then
      rep ++ replaceAll pat rep fuel ((c :: rest).drop pat.length)
    else c :: replaceAll pat rep fuel rest

def strReplace (s pat rep : String) : String :=
  String.mk (replaceAll pat.toList rep.toList s.toList.length s.toList)

/-- `strip_response(response, remote_ip, host)` (lines 93-128). The markup
parser and serializer are injected collaborators. A `text/html` body is
decoded with the response charset and, on `UnicodeDecodeError` only, the
raw bytes are decoded again, strictly, as utf-8 (`raw_body.decode('utf-8')`),
which itself raises when the bytes are not valid utf-8. The
`application/javascript` and `text/css` branch calls `response.text()` with
no fallback at all. Other content types pass the raw bytes through. Then
response headers are stripped, a `Location` header is downgraded with its
pre-rewrite target registered in the cache, and origin cookies are
sanitized onto the outgoing response. -/
def strip_body (parseHtml : String → List Tag) (serializeHtml : List Tag → String)
    (response : UpstreamResponse) (remote_ip host : String) (cache : InMemoryCache) :
    Except PyError (BodyData × InMemoryCache) :=
  if response.contentType = "text/html" then
      match responseText response with
      | some s =>
        let r := strip_html_body (parseHtml s) remote_ip host cache
        Except.ok (.text (serializeHtml r.1), r.2)
      | none =>
        match utf8Decode response.bodyBytes with
        | some s =>
          let r := strip_html_body (parseHtml s) remote_ip host cache
          Except.ok (.text (serializeHtml r.1), r.2)
        | none => Except.error .unicodeDecodeError
    else if response.contentType = "application/javascript" ∨ response.contentType = "text/css" then
      match responseText response with
      | some s =>
        let r := strip_text s remote_ip host cache
        Except.ok (.text r.1, r.2)
      | none => Except.error .unicodeDecodeError
    else Except.ok (.raw response.bodyBytes, cache)

def strip_response (parseHtml : String → List Tag) (serializeHtml : List Tag → String)
    (response : UpstreamResponse) (remote_ip host : String) (cache : InMemoryCache) :
    Except PyError (ClientResponse × InMemoryCache) :=
  match strip_body parseHtml serializeHtml response remote_ip host cache with
  | Except.error e => Except.error e
  | Except.ok (body, cache1) =>
    let headers := strip_headers response.headers .response
    let locRes :=
      match lookupKey headers "Location" with
      | some location =>
        (setKey headers "Location" (strReplace location "https://" "http://"),
         cache1.add_url remote_ip location none)
      | none => (headers, cache1)
    let cookieRes := strip_cookies remote_ip response.urlHost response.cookies locRes.2
    Except.ok
      ({ status := response.status
         headers := locRes.1
         body := body
         setCookies := cookieRes.1 }, cookieRes.2)

/-! ## Helper lemmas -/

theorem lookupKey_popKey_ne (l : List (String × String)) (k k' : String) (h : k ≠ k') :
    lookupKey (popKey l k') k = lookupKey l k := by
  induction l with
  | nil => rfl
  | cons p rest ih =>
    by_cases hp : p.1 = k'
    · have hpk : ¬ p.1 = k := by rw [hp]; exact fun hh => h hh.symm
      rw [popKey, if_pos hp, ih, lookupKey, if_neg hpk]
    · rw [popKey, if_neg hp, lookupKey, lookupKey]
      by_cases hpk : p.1 = k
      · rw [if_pos hpk, if_pos hpk]
      · rw [if_neg hpk, if_neg hpk, ih]

theorem lookupKey_popKey_self (l : List (String × String)) (k : String) :
    lookupKey (popKey l k) k = none := by
  induction l with
  | nil => rfl
  | cons p rest ih =>
    by_cases hp : p.1 = k
    · rw [popKey, if_pos hp, ih]
    · rw [popKey, if_neg hp, lookupKey, if_neg hp, ih]

theorem popKey_sublist (l : List (String × String)) (k : String) :
    (popKey l k).Sublist l := by
  induction l with
  | nil => exact List.Sublist.refl _
  | cons p rest ih =>
    by_cases hp : p.1 = k
    · rw [popKey, if_pos hp]; exact ih.cons p
    · rw [popKey, if_neg hp]; exact ih.cons₂ p

theorem lookupKey_strip_headers (l : List (String × String)) (t : HeaderType) (k : String)
    (hk : k ∉ HEADER_BLACKLIST t) :
    lookupKey (strip_headers l t) k = lookupKey l k := by
  cases t <;> simp [HEADER_BLACKLIST] at hk <;>
    simp only [strip_headers, HEADER_BLACKLIST, List.foldl]
  · rw [lookupKey_popKey_ne _ _ _ hk.2, lookupKey_popKey_ne _ _ _ hk.1]
  · rw [lookupKey_popKey_ne _ _ _ hk.2.2.2.2, lookupKey_popKey_ne _ _ _ hk.2.2.2.1,
      lookupKey_popKey_ne _ _ _ hk.2.2.1, lookupKey_popKey_ne _ _ _ hk.2.1,
      lookupKey_popKey_ne _ _ _ hk.1]

theorem lookupKey_map_set (l : List (String × String)) (k v : String)
    (h : l.any (fun p => decide (p.1 = k)) = true) :
    lookupKey (l.map (fun p => if p.1 = k then (k, v) else p)) k = some v := by
  induction l with
  | nil => simp at h
  | cons p rest ih =>
    by_cases hp : p.1 = k
    · simp [hp, lookupKey]
    · simp only [List.any_cons, Bool.or_eq_true, decide_eq_true_eq] at h
      rcases h with h | h
      · exact absurd h hp
      · simp only [List.map_cons, if_neg hp, lookupKey, if_neg hp]
        exact ih h

theorem lookupKey_append_new (l : List (String × String)) (k v : String)
    (h : l.any (fun p => decide (p.1 = k)) = false) :
    lookupKey (l ++ [(k, v)]) k = some v := by
  induction l with
  | nil => simp [lookupKey]
  | cons p rest ih =>
    simp only [List.any_cons, Bool.or_eq_false_iff, decide_eq_false_iff_not] at h
    simp only [List.cons_append, lookupKey, if_neg h.1]
    exact ih (by simpa using h.2)

theorem lookupKey_setKey_self (l : List (String × String)) (k v : String) :
    lookupKey (setKey l k v) k = some v := by
  by_cases h : l.any (fun p => decide (p.1 = k)) = true
  · rw [setKey, if_pos h]; exact lookupKey_map_set l k v h
  · rw [setKey, if_neg h]
    have hb : l.any (fun p => decide (p.1 = k)) = false := by
      cases hx : l.any (fun p => decide (p.1 = k))
      · rfl
      · exact absurd hx h
    exact lookupKey_append_new l k v hb

/-! ## C10: header stripping removes exactly the blacklist -/

/-- C10: `strip_headers` removes exactly the blacklisted headers for the
given type: a blacklisted key is absent afterwards, any other key is still
present with its value unchanged, and the returned mapping is the given
mapping minus the removed pairs (a sublist of it). -/
theorem strip_headers_removes_exactly (headers : List (String × String)) (t : HeaderType)
    (k : String) :
    (k ∈ HEADER_BLACKLIST t → lookupKey (strip_headers headers t) k = none) ∧
    (k ∉ HEADER_BLACKLIST t → lookupKey (strip_headers headers t) k = lookupKey headers k) ∧
    (strip_headers headers t).Sublist headers := by
  refine ⟨?_, fun hk => lookupKey_strip_headers headers t k hk, ?_⟩
  · intro hk
    cases t <;> simp [HEADER_BLACKLIST] at hk <;>
      simp only [strip_headers, HEADER_BLACKLIST, List.foldl]
    · rcases hk with hk | hk
      · rw [lookupKey_popKey_ne _ _ _ (by rw [hk]; decide), hk, lookupKey_popKey_self]
      · rw [hk, lookupKey_popKey_self]
    · rcases hk with hk | hk | hk | hk | hk <;> rw [hk]
      · rw [lookupKey_popKey_ne _ _ _ (by decide), lookupKey_popKey_ne _ _ _ (by decide),
          lookupKey_popKey_ne _ _ _ (by decide), lookupKey_popKey_ne _ _ _ (by decide),
          lookupKey_popKey_self]
      · rw [lookupKey_popKey_ne _ _ _ (by decide), lookupKey_popKey_ne _ _ _ (by decide),
          lookupKey_popKey_ne _ _ _ (by decide), lookupKey_popKey_self]
      · rw [lookupKey_popKey_ne _ _ _ (by decide), lookupKey_popKey_ne _ _ _ (by decide),
          lookupKey_popKey_self]
      · rw [lookupKey_popKey_ne _ _ _ (by decide), lookupKey_popKey_self]
      · rw [lookupKey_popKey_self]
  · cases t <;> simp only [strip_headers, HEADER_BLACKLIST, List.foldl] <;>
      exact ((popKey_sublist _ _).trans (popKey_sublist _ _)).trans
        (by first
          | exact List.Sublist.refl _
          | exact ((popKey_sublist _ _).trans (popKey_sublist _ _)).trans (popKey_sublist _ _))

/-- Witness for C10 at a concrete mapping: `Strict-Transport-Security` is
removed from a response header set, `X-Custom` survives unchanged. -/
theorem strip_headers_removes_exactly_witness :
    lookupKey (strip_headers [("Strict-Transport-Security", "max-age=1"), ("X-Custom", "v")]
      HeaderType.response) "Strict-Transport-Security" = none ∧
    lookupKey (strip_headers [("Strict-Transport-Security", "max-age=1"), ("X-Custom", "v")]
      HeaderType.response) "X-Custom" =
      lookupKey [("Strict-Transport-Security", "max-age=1"), ("X-Custom", "v")] "X-Custom" :=
  ⟨(strip_headers_removes_exactly _ HeaderType.response _).1 (by decide),
   (strip_headers_removes_exactly _ HeaderType.response _).2.1 (by decide)⟩

/-- When no `Origin` header survives header stripping, `proxy_request`
completes and returns the assembled upstream call. -/
theorem proxy_request_ok (cache : InMemoryCache) (req : InboundRequest)
    (h : lookupKey (strip_headers req.headers .request) "Origin" = none) :
    proxy_request cache req = Except.ok
      { method := lowerStr req.method
        url := urlunsplit (chooseScheme cache req) req.host req.path "" req.fragment
        headers := setKey (strip_headers req.headers .request) "Cookie"
          (String.intercalate "; " (filter_incoming_cookies cache req.cookies req.remote req.host))
        params := unstrip_query_params cache req.query req.remote
        hasData := req.hasBody
        allowRedirects := false } := by
  simp only [proxy_request, h]

/-! ## C8: a request carrying an Origin header aborts -/

/-- C8 (divergence at the general level): for every inbound request whose
headers carry an `Origin` entry, `proxy_request` raises `AttributeError`
instead of completing — the code reads `request.remote_ip`, an attribute
aiohttp requests do not have, inside a `try/except KeyError` that cannot
catch it. -/
theorem proxy_request_origin_raises (cache : InMemoryCache) (req : InboundRequest)
    (ov : String) (h : lookupKey req.headers "Origin" = some ov) :
    proxy_request cache req = Except.error PyError.attributeError := by
  have hk : lookupKey (strip_headers req.headers .request) "Origin" = some ov := by
    rw [lookupKey_strip_headers req.headers .request "Origin" (by decide)]; exact h
  simp only [proxy_request, hk]

/-- Witness for C8: a concrete request with a well-formed Origin header is
aborted by the request transformer. -/
theorem proxy_request_origin_raises_witness :
    proxy_request InMemoryCache.empty
      { remote := "1.2.3.4", host := "site.test", path := "/login", query := [], fragment := "",
        method := "POST", headers := [("Origin", "https://site.test")], cookies := [],
        hasBody := true } = Except.error PyError.attributeError :=
  proxy_request_origin_raises _ _ "https://site.test" (by decide)

/-! ## C6: the upstream call never follows redirects -/

/-- C6: for every inbound request that reaches the upstream call (no
`Origin` header, which aborts — see C8), the session call is issued with
`allow_redirects=False`, and therefore the origin's first response —
redirect or not — is delivered unfollowed to the
response-transformation stage. -/
theorem proxy_request_no_auto_redirect (cache : InMemoryCache) (req : InboundRequest)
    (h : lookupKey req.headers "Origin" = none) :
    ∃ call, proxy_request cache req = Except.ok call ∧
      call.allowRedirects = false ∧
      ∀ (origin : String → UpstreamResponse) (fuel : Nat),
        sessionRequest origin fuel call = origin call.url := by
  have hk : lookupKey (strip_headers req.headers .request) "Origin" = none := by
    rw [lookupKey_strip_headers req.headers .request "Origin" (by decide)]; exact h
  refine ⟨_, proxy_request_ok cache req hk, rfl, ?_⟩
  intro origin fuel
  cases fuel with
  | zero => rfl
  | succ n => simp [sessionRequest]

/-- Witness for C6 at a concrete request. -/
theorem proxy_request_no_auto_redirect_witness :
    ∃ call, proxy_request InMemoryCache.empty
      { remote := "1.2.3.4", host := "site.test", path := "/", query := [], fragment := "",
        method := "GET", headers := [], cookies := [], hasBody := false } = Except.ok call ∧
      call.allowRedirects = false ∧
      ∀ (origin : String → UpstreamResponse) (fuel : Nat),
        sessionRequest origin fuel call = origin call.url :=
  proxy_request_no_auto_redirect InMemoryCache.empty _ (by decide)

/-! ## C1: upstream scheme selection -/

theorem urlunsplit_assembled (scheme host path frag : String)
    (hs : scheme ≠ "") (hh : host ≠ "") (hp : pyStartsWith path "/" = true ∨ path = "") :
    urlunsplit scheme host path "" frag =
      scheme ++ ("://" ++ (host ++ path)) ++ (if frag = "" then "" else "#" ++ frag) := by
  have hcore : scheme ++ ":" ++ ("//" ++ host ++ path) = scheme ++ ("://" ++ (host ++ path)) := by
    rw [String.append_assoc "//" host path, String.append_assoc,
      ← String.append_assoc ":" "//" (host ++ path)]
    rfl
  have hinner : ¬ (path ≠ "" ∧ ¬ pyStartsWith path "/" = true) := by
    rcases hp with hp | hp
    · exact fun hc => hc.2 hp
    · exact fun hc => hc.1 hp
  have hmerge : ∀ x : String, (":" : String) ++ ("//" ++ x) = "://" ++ x := by
    intro x
    rw [← String.append_assoc]
    rfl
  by_cases hf : frag = ""
  · simp only [urlunsplit, if_pos (Or.inl hh), if_neg hinner, if_pos hs,
      if_neg (by simp : ¬ ("" : String) ≠ ""), if_neg (by simp [hf] : ¬ frag ≠ ""),
      if_pos hf, hcore]
    rw [String.append_empty]
  · simp only [urlunsplit, if_pos (Or.inl hh), if_neg hinner, if_pos hs,
      if_neg (by simp : ¬ ("" : String) ≠ ""), if_pos (by simp [hf] : frag ≠ ""),
      if_neg hf, String.append_assoc]
    rw [hmerge]

/-- C1 as amended: the upstream request is issued over `https` exactly when
the normalized path+query is recorded in the cache as a stripped path for
this client and host; with no cache evidence the upstream scheme defaults
to the INSECURE `http`, not to the secure scheme. (Stated for requests
without an `Origin` header — which abort, see C8 — with a nonempty host
and a root-relative path, as aiohttp provides them.) -/
theorem proxy_request_scheme_selection (cache : InMemoryCache) (req : InboundRequest)
    (hO : lookupKey req.headers "Origin" = none)
    (hh : req.host ≠ "") (hp : pyStartsWith req.path "/" = true) :
    ∃ call, proxy_request cache req = Except.ok call ∧
      (cache.has_url req.remote req.host req.relUrl = true →
        call.url = "https" ++ ("://" ++ (req.host ++ req.path)) ++
          (if req.fragment = "" then "" else "#" ++ req.fragment)) ∧
      (cache.has_url req.remote req.host req.relUrl = false →
        call.url = "http" ++ ("://" ++ (req.host ++ req.path)) ++
          (if req.fragment = "" then "" else "#" ++ req.fragment)) := by
  have hk : lookupKey (strip_headers req.headers .request) "Origin" = none := by
    rw [lookupKey_strip_headers req.headers .request "Origin" (by decide)]; exact hO
  refine ⟨_, proxy_request_ok cache req hk, ?_, ?_⟩
  · intro hc
    show urlunsplit (chooseScheme cache req) req.host req.path "" req.fragment = _
    rw [chooseScheme, if_pos hc]
    exact urlunsplit_assembled _ _ _ _ (by decide) hh (Or.inl hp)
  · intro hc
    show urlunsplit (chooseScheme cache req) req.host req.path "" req.fragment = _
    rw [chooseScheme, if_neg (by simp [hc])]
    exact urlunsplit_assembled _ _ _ _ (by decide) hh (Or.inl hp)

/-- A sample request for `/login` from client 1.2.3.4, used by concrete
witnesses. -/
def loginReq : InboundRequest :=
  { remote := "1.2.3.4", host := "site.test", path := "/login", query := [], fragment := "",
    method := "GET", headers := [], cookies := [], hasBody := false }

/-- A cache that records `/login` as a stripped path for that client and
host. -/
def loginCache : InMemoryCache := ⟨[("1.2.3.4", "site.test", "/login")], []⟩

/-- Witness for the amended C1: at a concrete request, a cache hit yields a
secure upstream URL and a cache miss an insecure one. -/
theorem proxy_request_scheme_selection_witness :
    ∃ call, proxy_request loginCache loginReq = Except.ok call ∧
      (loginCache.has_url loginReq.remote loginReq.host loginReq.relUrl = true →
        call.url = "https" ++ ("://" ++ (loginReq.host ++ loginReq.path)) ++
          (if loginReq.fragment = "" then "" else "#" ++ loginReq.fragment)) ∧
      (loginCache.has_url loginReq.remote loginReq.host loginReq.relUrl = false →
        call.url = "http" ++ ("://" ++ (loginReq.host ++ loginReq.path)) ++
          (if loginReq.fragment = "" then "" else "#" ++ loginReq.fragment)) :=
  proxy_request_scheme_selection loginCache loginReq (by decide) (by decide) (by decide)

/-- Counterexample to C1 as stated: on the first contact with an origin
(empty cache, hence no contrary evidence) the upstream request for
`GET http://site.test/` is issued to `http://site.test/`, not over the
secure scheme the claim's default requires. -/
theorem proxy_request_default_insecure_cex :
    proxy_request InMemoryCache.empty
      { remote := "1.2.3.4", host := "site.test", path := "/", query := [], fragment := "",
        method := "GET", headers := [], cookies := [], hasBody := false } =
      Except.ok { method := "get", url := "http://site.test/", headers := [("Cookie", "")],
                  params := [], hasData := false, allowRedirects := false } ∧
    ("http://site.test/" : String) ≠ "https://site.test/" ∧
    pyStartsWith "http://site.test/" "https" = false := by
  exact ⟨rfl, by decide, by decide⟩

/-! ## C2: unknown client cookies never reach the upstream request -/

theorem append_eq_marker_inj (a b c d : List Char) (ha : '=' ∉ a) (hc : '=' ∉ c)
    (h : a ++ '=' :: b = c ++ '=' :: d) : a = c ∧ b = d := by
  induction a generalizing c with
  | nil =>
    cases c with
    | nil => simpa using h
    | cons y ys =>
      simp only [List.nil_append, List.cons_append, List.cons.injEq] at h
      exact absurd (List.mem_cons_self y ys) (h.1 ▸ hc)
  | cons x xs ih =>
    cases c with
    | nil =>
      simp only [List.cons_append, List.nil_append, List.cons.injEq] at h
      exact absurd (List.mem_cons_self x xs) (h.1.symm ▸ ha)
    | cons y ys =>
      simp only [List.cons_append, List.cons.injEq] at h
      have hrec := ih (fun hm => ha (List.mem_cons_of_mem x hm))
        (c := ys) (fun hm => hc (List.mem_cons_of_mem y hm)) h.2
      exact ⟨by rw [h.1, hrec.1], hrec.2⟩

/-- The name of a `name=value` cookie entry is determined when names are
free of the separator. -/
theorem cookie_entry_name_inj (n v m w : String) (hn : '=' ∉ n.toList) (hm : '=' ∉ m.toList)
    (h : n ++ "=" ++ v = m ++ "=" ++ w) : n = m := by
  have hd := congrArg String.data h
  rw [String.data_append, String.data_append, String.data_append, String.data_append] at hd
  have hsingle : ("=" : String).data = ['='] := rfl
  rw [hsingle, List.append_assoc, List.append_assoc, List.singleton_append,
    List.singleton_append] at hd
  have := (append_eq_marker_inj n.data v.data m.data w.data hn hm hd).1
  have hmk := congrArg String.mk this
  simpa using hmk

/-- Any cookie name the cache has not recorded for this client and host
produces no `name=value` entry in the filtered cookie list. -/
theorem filter_incoming_cookies_drops (cache : InMemoryCache)
    (cookies : List (String × String)) (remote host name : String)
    (hn : cache.has_cookie remote host name = false)
    (hne : '=' ∉ name.toList)
    (hall : ∀ p ∈ cookies, '=' ∉ (p : String × String).1.toList) :
    ∀ v, (name ++ "=" ++ v) ∉ filter_incoming_cookies cache cookies remote host := by
  intro v hmem
  simp only [filter_incoming_cookies, List.mem_map, List.mem_filter] at hmem
  obtain ⟨⟨n', v'⟩, ⟨hmem', hcook⟩, heq⟩ := hmem
  have hname : n' = name := cookie_entry_name_inj n' v' name v (hall _ hmem') hne heq
  rw [hname] at hcook
  rw [hn] at hcook
  exact Bool.false_ne_true hcook

/-- C2: a client cookie whose name the cache has never recorded as allowed
for this client and host is absent from the outbound request's cookie
header (the header is exactly the join of the filtered entries, and no
`name=value` entry for that name occurs among them), and the request
transformer completes without error. Stated for requests without an
`Origin` header (see C8) and separator-free cookie names, as cookie
parsing guarantees. -/
theorem proxy_request_drops_unknown_cookie (cache : InMemoryCache) (req : InboundRequest)
    (name : String)
    (hO : lookupKey req.headers "Origin" = none)
    (hn : cache.has_cookie req.remote req.host name = false)
    (hne : '=' ∉ name.toList)
    (hall : ∀ p ∈ req.cookies, '=' ∉ (p : String × String).1.toList) :
    ∃ call, proxy_request cache req = Except.ok call ∧
      lookupKey call.headers "Cookie" =
        some (String.intercalate "; "
          (filter_incoming_cookies cache req.cookies req.remote req.host)) ∧
      ∀ v, (name ++ "=" ++ v) ∉
        filter_incoming_cookies cache req.cookies req.remote req.host := by
  have hk : lookupKey (strip_headers req.headers .request) "Origin" = none := by
    rw [lookupKey_strip_headers req.headers .request "Origin" (by decide)]; exact hO
  exact ⟨_, proxy_request_ok cache req hk, lookupKey_setKey_self _ _ _,
    filter_incoming_cookies_drops cache req.cookies req.remote req.host name hn hne hall⟩

/-- A request presenting a cache-recorded cookie `session` and an unknown
cookie `other`. -/
def twoCookieReq : InboundRequest :=
  { remote := "1.2.3.4", host := "site.test", path := "/", query := [], fragment := "",
    method := "GET", headers := [], cookies := [("session", "abc"), ("other", "xyz")],
    hasBody := false }

/-- A cache that has recorded only the cookie `session` for that client and
host. -/
def sessionCookieCache : InMemoryCache := ⟨[], [("1.2.3.4", "site.test", "session")]⟩

/-- Witness for C2: the unknown cookie `other` is dropped from the outbound
cookie header while the request completes (and the recorded `session`
cookie survives). -/
theorem proxy_request_drops_unknown_cookie_witness :
    (∃ call, proxy_request sessionCookieCache twoCookieReq = Except.ok call ∧
      lookupKey call.headers "Cookie" =
        some (String.intercalate "; "
          (filter_incoming_cookies sessionCookieCache twoCookieReq.cookies
            twoCookieReq.remote twoCookieReq.host)) ∧
      ∀ v, ("other" ++ "=" ++ v) ∉
        filter_incoming_cookies sessionCookieCache twoCookieReq.cookies
          twoCookieReq.remote twoCookieReq.host) ∧
    filter_incoming_cookies sessionCookieCache twoCookieReq.cookies
      twoCookieReq.remote twoCookieReq.host = ["session=abc"] :=
  ⟨proxy_request_drops_unknown_cookie sessionCookieCache twoCookieReq "other"
    (by decide) (by decide) (by decide) (by decide), by decide⟩

/-! ## C4: the relative pass interpolates the match object, not the match -/

/-- C4 (divergence at the failing input): `strip_text` on the root-relative
URL `/login` with host `site.test` registers the relative path in the cache
for that client and host and runs the relative pass before the secure pass,
but its output embeds the `repr` of the match object —
`'http://{}{}'.format(host, relative_url)` formats the match object itself —
instead of the absolute insecure URL `http://site.test/login` the spec
promises. -/
theorem strip_text_match_object_bug :
    strip_text "/login" "1.2.3.4" "site.test" InMemoryCache.empty =
      ("http://site.test<re.Match object; span=(0, 6), match=" ++ pySQ ++ "/login" ++ pySQ ++ ">",
        ⟨[("1.2.3.4", "site.test", "/login")], []⟩) ∧
    (strip_text "/login" "1.2.3.4" "site.test" InMemoryCache.empty).1 ≠
      "http://site.test" ++ "/login" :=
  ⟨by decide, by decide⟩

/-! ## C9: the text rewrite is not idempotent -/

/-- Counterexample to C9 as stated: `strip_text` applied to its own output
differs from that output. First conjunct: the relative pass emits the match
object's `repr`, whose text contains the matched `/a` again, so a second
application rewrites it once more. Second conjunct: even on the pure
secure-absolute side, a greedy match swallows a second `https://` URL
embedded in the first one, which only gets downgraded by the second
application. -/
theorem strip_text_not_idempotent_cex :
    ((strip_text (strip_text "/a" "1.2.3.4" "h" InMemoryCache.empty).1 "1.2.3.4" "h"
        InMemoryCache.empty).1 ≠ (strip_text "/a" "1.2.3.4" "h" InMemoryCache.empty).1) ∧
    ((strip_text (strip_text "https://a/https://b" "1.2.3.4" "h" InMemoryCache.empty).1
        "1.2.3.4" "h" InMemoryCache.empty).1 ≠
      (strip_text "https://a/https://b" "1.2.3.4" "h" InMemoryCache.empty).1) := by
  exact ⟨by decide, by decide⟩

theorem relativeSub_no_match (client host : String) (fuel pos : Nat) (prev : Option Char)
    (s : List Char) (cache : InMemoryCache) (h : relativeScan prev s = false) :
    relativeSub client host fuel pos prev s cache = (s, cache) := by
  induction fuel generalizing pos prev s cache with
  | zero => rfl
  | succ n ih =>
    cases s with
    | nil => rfl
    | cons c rest =>
      rw [relativeScan] at h
      cases hm : relativeMatchAt prev (c :: rest) with
      | some p => rw [hm] at h; exact absurd h (by simp)
      | none =>
        rw [hm] at h
        simp only [relativeSub, hm]
        rw [ih (pos + 1) (some c) rest cache h]

theorem secureSub_no_match (client : String) (fuel : Nat)
    (s : List Char) (cache : InMemoryCache) (h : secureScan s = false) :
    secureSub client fuel s cache = (s, cache) := by
  induction fuel generalizing s cache with
  | zero => rfl
  | succ n ih =>
    cases s with
    | nil => rfl
    | cons c rest =>
      rw [secureScan] at h
      cases hm : secureMatchAt (c :: rest) with
      | some p => rw [hm] at h; exact absurd h (by simp)
      | none =>
        rw [hm] at h
        simp only [secureSub, hm]
        rw [ih rest cache h]

/-- C9 as amended: a text blob in which neither the relative pattern nor
the secure-absolute pattern matches anywhere — in particular fully
rewritten text whose URLs are all absolute and insecure — is a fixed point
of `strip_text`, returned unchanged with the cache untouched. Full
idempotence (`strip_text` applied to its own output equals that output)
fails: see the counterexample. -/
theorem strip_text_fixed_point (body remote host : String) (cache : InMemoryCache)
    (h1 : relativeScan none body.toList = false) (h2 : secureScan body.toList = false) :
    strip_text body remote host cache = (body, cache) := by
  simp only [strip_text]
  rw [relativeSub_no_match remote host body.toList.length 0 none body.toList cache h1]
  rw [secureSub_no_match remote body.toList.length body.toList cache h2]
  rfl

/-- Witness for the amended C9: already-downgraded text is unchanged by a
second rewrite. -/
theorem strip_text_fixed_point_witness :
    relativeScan none ("http://a.b/c" : String).toList = false ∧
    secureScan ("http://a.b/c" : String).toList = false ∧
    strip_text "http://a.b/c" "1.2.3.4" "a.b" InMemoryCache.empty =
      ("http://a.b/c", InMemoryCache.empty) :=
  ⟨by decide, by decide,
    strip_text_fixed_point "http://a.b/c" "1.2.3.4" "a.b" InMemoryCache.empty
      (by decide) (by decide)⟩

/-! ## C7: a body decode failure fails the whole response -/

/-- C7 (divergence at the failing input): an upstream response declaring a
text content type whose body cannot be decoded does NOT degrade to a
permissive raw-byte passthrough. For `text/css` the code calls
`response.text()` with no fallback at all; for `text/html` the fallback
`raw_body.decode('utf-8')` decodes strictly and raises again on bytes that
are not valid utf-8. In both cases the whole response fails with
`UnicodeDecodeError` (here: declared charset ascii, body byte 0xFF). -/
theorem strip_response_decode_failure_fatal :
    strip_response (fun _ => []) (fun _ => "")
      { status := 200, headers := [], contentType := "text/css", charset := "ascii",
        bodyBytes := [255], cookies := [], urlHost := "site.test" }
      "1.2.3.4" "site.test" InMemoryCache.empty = Except.error PyError.unicodeDecodeError ∧
    strip_response (fun _ => []) (fun _ => "")
      { status := 200, headers := [], contentType := "text/html", charset := "ascii",
        bodyBytes := [255], cookies := [], urlHost := "site.test" }
      "1.2.3.4" "site.test" InMemoryCache.empty = Except.error PyError.unicodeDecodeError :=
  ⟨rfl, rfl⟩

/-! ## C3: redirect downgrade and secure replay -/

theorem strip_cookies_urls (remote host : String)
    (cookies : List (String × String × List (String × String))) (cache : InMemoryCache) :
    (strip_cookies remote host cookies cache).2.urls = cache.urls := by
  induction cookies generalizing cache with
  | nil => rfl
  | cons c rest ih =>
    obtain ⟨name, value, directives⟩ := c
    simp only [strip_cookies]
    rw [ih]
    rfl

theorem isPrefixOf_append_self (l t : List Char) : l.isPrefixOf (l ++ t) = true := by
  induction l with
  | nil => simp [List.isPrefixOf]
  | cons c rest ih => simp [List.isPrefixOf, ih]

/-- One replacement step of `replaceAll` at a position where the pattern
matches. -/
theorem replaceAll_step (pat rep s : List Char) (fuel : Nat)
    (hp : pat ≠ []) (hpre : pat.isPrefixOf s = true) (hf : fuel ≠ 0) (hs : s ≠ []) :
    replaceAll pat rep fuel s = rep ++ replaceAll pat rep (fuel - 1) (s.drop pat.length) := by
  cases fuel with
  | zero => exact absurd rfl hf
  | succ n =>
    cases s with
    | nil => exact absurd rfl hs
    | cons c cs =>
      simp only [replaceAll]
      rw [if_pos ⟨hp, hpre⟩]
      rfl

/-- Replacing the secure scheme in a string that starts with it yields a
string that starts with the insecure scheme. -/
theorem strReplace_https_prefix (rest : String) :
    ∃ t, strReplace ("https://" ++ rest) "https://" "http://" = "http://" ++ t := by
  have hdata : ("https://" ++ rest).toList = "https://".toList ++ rest.toList :=
    String.data_append _ _
  have key : strReplace ("https://" ++ rest) "https://" "http://" =
      "http://" ++ String.mk (replaceAll "https://".toList "http://".toList
        (("https://".toList ++ rest.toList).length - 1)
        (List.drop "https://".toList.length ("https://".toList ++ rest.toList))) := by
    show String.mk (replaceAll "https://".toList "http://".toList
      ("https://" ++ rest).toList.length ("https://" ++ rest).toList) = _
    rw [hdata]
    rw [replaceAll_step "https://".toList "http://".toList _ _ (by decide)
      (isPrefixOf_append_self _ _) (by simp) (by simp)]
    rfl
  exact ⟨_, key⟩

/-- C3: for every upstream response carrying a `Location` header with a
secure-scheme URL: the client-facing response's `Location` has the
insecure scheme, the pre-rewrite target's host and normalized path+query
are registered in the cache for this client, and a subsequent request from
the same client for that host and path+query is replayed upstream over the
secure scheme. -/
theorem strip_response_location_downgrade
    (parseHtml : String → List Tag) (serializeHtml : List Tag → String)
    (response : UpstreamResponse) (remote_ip host : String) (cache : InMemoryCache)
    (loc rest : String) (out : ClientResponse × InMemoryCache)
    (hloc : lookupKey response.headers "Location" = some loc)
    (hsec : loc = "https://" ++ rest)
    (hok : strip_response parseHtml serializeHtml response remote_ip host cache =
      Except.ok out) :
    lookupKey out.1.headers "Location" = some (strReplace loc "https://" "http://") ∧
    (∃ t, strReplace loc "https://" "http://" = "http://" ++ t) ∧
    out.2.has_url remote_ip (urlsplit loc).netloc (urlsplit loc).pathQuery = true ∧
    (∀ req2 : InboundRequest, req2.remote = remote_ip →
      req2.host = (urlsplit loc).netloc → req2.relUrl = (urlsplit loc).pathQuery →
      lookupKey req2.headers "Origin" = none →
      ∃ call2, proxy_request out.2 req2 = Except.ok call2 ∧
        call2.url = urlunsplit "https" req2.host req2.path "" req2.fragment) := by
  have hloc2 : lookupKey (strip_headers response.headers .response) "Location" = some loc := by
    rw [lookupKey_strip_headers response.headers .response "Location" (by decide)]
    exact hloc
  cases hb : strip_body parseHtml serializeHtml response remote_ip host cache with
  | error e =>
    rw [strip_response, hb] at hok
    exact absurd hok (by simp)
  | ok bc =>
    obtain ⟨body, cache1⟩ := bc
    rw [strip_response, hb] at hok
    simp only [hloc2] at hok
    have hout := (Except.ok.injEq _ _).mp hok
    have hurl : out.2.has_url remote_ip (urlsplit loc).netloc (urlsplit loc).pathQuery = true := by
      rw [← hout]
      show ((strip_cookies remote_ip response.urlHost response.cookies _).2.has_url
        remote_ip (urlsplit loc).netloc (urlsplit loc).pathQuery) = true
      rw [InMemoryCache.has_url, strip_cookies_urls, InMemoryCache.add_url]
      simp
    refine ⟨?_, ?_, hurl, ?_⟩
    · rw [← hout]
      exact lookupKey_setKey_self _ _ _
    · rw [hsec]
      exact strReplace_https_prefix rest
    · intro req2 h1 h2 h3 hO2
      have hk2 : lookupKey (strip_headers req2.headers .request) "Origin" = none := by
        rw [lookupKey_strip_headers req2.headers .request "Origin" (by decide)]
        exact hO2
      refine ⟨_, proxy_request_ok out.2 req2 hk2, ?_⟩
      show urlunsplit (chooseScheme out.2 req2) req2.host req2.path "" req2.fragment = _
      have hhit : out.2.has_url req2.remote req2.host req2.relUrl = true := by
        rw [h1, h2, h3]
        exact hurl
      rw [chooseScheme, if_pos hhit]

/-- A concrete upstream redirect to a secure URL. -/
def redirResp : UpstreamResponse :=
  { status := 302, headers := [("Location", "https://example.com/secure/path")],
    contentType := "image/png", charset := "utf-8", bodyBytes := [], cookies := [],
    urlHost := "example.com" }

/-- The client-facing result of stripping `redirResp` for client 1.2.3.4. -/
def redirOut : ClientResponse × InMemoryCache :=
  ({ status := 302, headers := [("Location", "http://example.com/secure/path")],
     body := BodyData.raw [], setCookies := [] },
   ⟨[("1.2.3.4", "example.com", "/secure/path")], []⟩)

/-- Witness for C3 at the spec's own example: `Location:
https://example.com/secure/path` is rewritten to the insecure scheme,
`/secure/path` is cached for `example.com`, and a later request for it is
replayed securely. -/
theorem strip_response_location_downgrade_witness :
    lookupKey redirOut.1.headers "Location" =
      some (strReplace "https://example.com/secure/path" "https://" "http://") ∧
    (∃ t, strReplace "https://example.com/secure/path" "https://" "http://" =
      "http://" ++ t) ∧
    redirOut.2.has_url "1.2.3.4" (urlsplit "https://example.com/secure/path").netloc
      (urlsplit "https://example.com/secure/path").pathQuery = true ∧
    (∀ req2 : InboundRequest, req2.remote = "1.2.3.4" →
      req2.host = (urlsplit "https://example.com/secure/path").netloc →
      req2.relUrl = (urlsplit "https://example.com/secure/path").pathQuery →
      lookupKey req2.headers "Origin" = none →
      ∃ call2, proxy_request redirOut.2 req2 = Except.ok call2 ∧
        call2.url = urlunsplit "https" req2.host req2.path "" req2.fragment) :=
  strip_response_location_downgrade (fun _ => []) (fun _ => "") redirResp "1.2.3.4"
    "example.com" InMemoryCache.empty "https://example.com/secure/path"
    "example.com/secure/path" redirOut (by decide) (by decide) rfl

/-! ## C5: every matching attribute of every tag is rewritten and cached -/

/-- One cache state extends another: every recorded entry is preserved
(the spec's write-once-add-only invariant, section 3). -/
def cacheLE (c c' : InMemoryCache) : Prop :=
  (∀ x ∈ c.urls, x ∈ c'.urls) ∧ (∀ x ∈ c.cookies, x ∈ c'.cookies)

theorem cacheLE_refl (c : InMemoryCache) : cacheLE c c :=
  ⟨fun _ h => h, fun _ h => h⟩

theorem cacheLE_trans {a b c : InMemoryCache} (h1 : cacheLE a b) (h2 : cacheLE b c) :
    cacheLE a c :=
  ⟨fun x hx => h2.1 x (h1.1 x hx), fun x hx => h2.2 x (h1.2 x hx)⟩

theorem cacheLE_add_url (c : InMemoryCache) (client url : String) (host : Option String) :
    cacheLE c (c.add_url client url host) :=
  ⟨fun _ hx => List.mem_cons_of_mem _ hx, fun _ hx => hx⟩

theorem cacheLE_add_cookie (c : InMemoryCache) (client host name : String) :
    cacheLE c (c.add_cookie client host name) :=
  ⟨fun _ hx => hx, fun _ hx => List.mem_cons_of_mem _ hx⟩

theorem has_url_mono {c c' : InMemoryCache} (h : cacheLE c c') {client host rel : String}
    (hu : c.has_url client host rel = true) : c'.has_url client host rel = true := by
  simp only [InMemoryCache.has_url, List.any_eq_true] at hu ⊢
  obtain ⟨e, he, hdec⟩ := hu
  exact ⟨e, h.1 e he, hdec⟩

theorem cacheLE_scanAttrs (remote host : String) (attrs : List (String × String))
    (cache : InMemoryCache) : cacheLE cache (scanAttrs remote host attrs cache).2 := by
  induction attrs generalizing cache with
  | nil => exact cacheLE_refl _
  | cons p rest ih =>
    obtain ⟨a, v⟩ := p
    simp only [scanAttrs]
    by_cases h1 : secureFullmatch v = true
    · rw [if_pos h1]
      exact cacheLE_trans (cacheLE_add_url _ _ _ _) (ih _)
    · rw [if_neg h1]
      by_cases h2 : relativeFullmatch v = true
      · rw [if_pos h2]
        exact cacheLE_trans (cacheLE_add_url _ _ _ _) (ih _)
      · rw [if_neg h2]
        exact ih _

theorem cacheLE_findSecureTags (remote host : String) (doc : List Tag)
    (cache : InMemoryCache) : cacheLE cache (findSecureTags remote host doc cache).2 := by
  induction doc generalizing cache with
  | nil => exact cacheLE_refl _
  | cons t ts ih =>
    simp only [findSecureTags]
    exact cacheLE_trans (cacheLE_scanAttrs remote host t.attrs cache) (ih _)

theorem cacheLE_relativeSub (client host : String) (fuel pos : Nat) (prev : Option Char)
    (s : List Char) (cache : InMemoryCache) :
    cacheLE cache (relativeSub client host fuel pos prev s cache).2 := by
  induction fuel generalizing pos prev s cache with
  | zero => exact cacheLE_refl _
  | succ n ih =>
    cases hm : relativeMatchAt prev s with
    | some p =>
      obtain ⟨m, rest⟩ := p
      simp only [relativeSub, hm]
      exact cacheLE_trans (cacheLE_add_url _ _ _ _) (ih _ _ _ _)
    | none =>
      cases s with
      | nil => exact cacheLE_refl _
      | cons c rest =>
        simp only [relativeSub, hm]
        exact ih _ _ _ _

theorem cacheLE_secureSub (client : String) (fuel : Nat) (s : List Char)
    (cache : InMemoryCache) : cacheLE cache (secureSub client fuel s cache).2 := by
  induction fuel generalizing s cache with
  | zero => exact cacheLE_refl _
  | succ n ih =>
    cases hm : secureMatchAt s with
    | some p =>
      obtain ⟨g0, g1, rest⟩ := p
      simp only [secureSub, hm]
      exact cacheLE_trans (cacheLE_add_url _ _ _ _) (ih _ _)
    | none =>
      cases s with
      | nil => exact cacheLE_refl _
      | cons c rest =>
        simp only [secureSub, hm]
        exact ih _ _

theorem cacheLE_strip_text (body remote host : String) (cache : InMemoryCache) :
    cacheLE cache (strip_text body remote host cache).2 := by
  simp only [strip_text]
  exact cacheLE_trans (cacheLE_relativeSub remote host _ 0 none body.toList cache)
    (cacheLE_secureSub remote _ _ _)

theorem cacheLE_stripScriptTag (remote host : String) (t : Tag) (cache : InMemoryCache) :
    cacheLE cache (stripScriptTag remote host t cache).2 := by
  rw [stripScriptTag]
  split
  · split
    · split
      · exact cacheLE_strip_text _ _ _ _
      · exact cacheLE_refl _
    · exact cacheLE_refl _
  · exact cacheLE_refl _

theorem cacheLE_stripScriptBlocks (remote host : String) (doc : List Tag)
    (cache : InMemoryCache) : cacheLE cache (stripScriptBlocks remote host doc cache).2 := by
  induction doc generalizing cache with
  | nil => exact cacheLE_refl _
  | cons t ts ih =>
    simp only [stripScriptBlocks]
    exact cacheLE_trans (cacheLE_stripScriptTag remote host t cache) (ih _)

theorem scanAttrs_fst (remote host : String) (attrs : List (String × String))
    (cache : InMemoryCache) : (scanAttrs remote host attrs cache).1 = urlAttrNames attrs := by
  induction attrs generalizing cache with
  | nil => rfl
  | cons p rest ih =>
    obtain ⟨a, v⟩ := p
    simp only [scanAttrs, urlAttrNames]
    by_cases h1 : secureFullmatch v = true
    · rw [if_pos h1, if_pos h1]
      simp [ih]
    · rw [if_neg h1, if_neg h1]
      by_cases h2 : relativeFullmatch v = true
      · rw [if_pos h2, if_pos h2]
        simp [ih]
      · rw [if_neg h2, if_neg h2]
        exact ih _

theorem findSecureTags_get (remote host : String) (doc : List Tag) (cache : InMemoryCache)
    (i : Nat) :
    (findSecureTags remote host doc cache).1.get? i =
      (doc.get? i).map (fun t => (t, urlAttrNames t.attrs)) := by
  induction doc generalizing cache i with
  | nil => simp [findSecureTags]
  | cons t ts ih =>
    cases i with
    | zero => simp [findSecureTags, scanAttrs_fst]
    | succ n =>
      simp only [findSecureTags, List.get?]
      exact ih _ n

theorem scanAttrs_has_url_secure (remote host : String) (attrs : List (String × String))
    (cache : InMemoryCache) (a v : String) (hav : (a, v) ∈ attrs)
    (hm : secureFullmatch v = true) :
    (scanAttrs remote host attrs cache).2.has_url remote (urlsplit v).netloc
      (urlsplit v).pathQuery = true := by
  induction attrs generalizing cache with
  | nil => cases hav
  | cons p rest ih =>
    obtain ⟨a', v'⟩ := p
    rcases List.mem_cons.mp hav with heq | hmem
    · obtain ⟨rfl, rfl⟩ := Prod.mk.injEq .. ▸ heq
      simp only [scanAttrs]
      rw [if_pos hm]
      refine has_url_mono (cacheLE_scanAttrs remote host rest _) ?_
      simp [InMemoryCache.add_url, InMemoryCache.has_url]
    · simp only [scanAttrs]
      by_cases h1 : secureFullmatch v' = true
      · rw [if_pos h1]
        exact ih _ hmem
      · rw [if_neg h1]
        by_cases h2 : relativeFullmatch v' = true
        · rw [if_pos h2]
          exact ih _ hmem
        · rw [if_neg h2]
          exact ih _ hmem

theorem scanAttrs_has_url_relative (remote host : String) (attrs : List (String × String))
    (cache : InMemoryCache) (a v : String) (hav : (a, v) ∈ attrs)
    (hm : relativeFullmatch v = true) (hm2 : secureFullmatch v = false) :
    (scanAttrs remote host attrs cache).2.has_url remote host
      (urlsplit v).pathQuery = true := by
  induction attrs generalizing cache with
  | nil => cases hav
  | cons p rest ih =>
    obtain ⟨a', v'⟩ := p
    rcases List.mem_cons.mp hav with heq | hmem
    · obtain ⟨rfl, rfl⟩ := Prod.mk.injEq .. ▸ heq
      simp only [scanAttrs]
      rw [if_neg (by simp [hm2]), if_pos hm]
      refine has_url_mono (cacheLE_scanAttrs remote host rest _) ?_
      simp [InMemoryCache.add_url, InMemoryCache.has_url]
    · simp only [scanAttrs]
      by_cases h1 : secureFullmatch v' = true
      · rw [if_pos h1]
        exact ih _ hmem
      · rw [if_neg h1]
        by_cases h2 : relativeFullmatch v' = true
        · rw [if_pos h2]
          exact ih _ hmem
        · rw [if_neg h2]
          exact ih _ hmem

theorem findSecureTags_has_url_secure (remote host : String) (doc : List Tag)
    (cache : InMemoryCache) (i : Nat) (t : Tag) (a v : String)
    (ht : doc.get? i = some t) (hav : (a, v) ∈ t.attrs) (hm : secureFullmatch v = true) :
    (findSecureTags remote host doc cache).2.has_url remote (urlsplit v).netloc
      (urlsplit v).pathQuery = true := by
  induction doc generalizing cache i with
  | nil => simp at ht
  | cons t0 ts ih =>
    cases i with
    | zero =>
      simp only [List.get?] at ht
      injection ht with ht
      subst ht
      simp only [findSecureTags]
      exact has_url_mono (cacheLE_findSecureTags remote host ts _)
        (scanAttrs_has_url_secure remote host _ cache a v hav hm)
    | succ n =>
      simp only [List.get?] at ht
      simp only [findSecureTags]
      exact ih _ n ht

theorem findSecureTags_has_url_relative (remote host : String) (doc : List Tag)
    (cache : InMemoryCache) (i : Nat) (t : Tag) (a v : String)
    (ht : doc.get? i = some t) (hav : (a, v) ∈ t.attrs) (hm : relativeFullmatch v = true)
    (hm2 : secureFullmatch v = false) :
    (findSecureTags remote host doc cache).2.has_url remote host
      (urlsplit v).pathQuery = true := by
  induction doc generalizing cache i with
  | nil => simp at ht
  | cons t0 ts ih =>
    cases i with
    | zero =>
      simp only [List.get?] at ht
      injection ht with ht
      subst ht
      simp only [findSecureTags]
      exact has_url_mono (cacheLE_findSecureTags remote host ts _)
        (scanAttrs_has_url_relative remote host _ cache a v hav hm hm2)
    | succ n =>
      simp only [List.get?] at ht
      simp only [findSecureTags]
      exact ih _ n ht

theorem lookupKey_of_mem_nodup (l : List (String × String)) (a v : String)
    (hnd : (l.map Prod.fst).Nodup) (h : (a, v) ∈ l) : lookupKey l a = some v := by
  induction l with
  | nil => cases h
  | cons p rest ih =>
    rcases List.mem_cons.mp h with heq | hmem
    · obtain ⟨rfl, rfl⟩ := Prod.mk.injEq .. ▸ heq
      simp [lookupKey]
    · have hne : p.1 ≠ a := by
        intro hpa
        have : a ∈ rest.map Prod.fst := List.mem_map.mpr ⟨(a, v), hmem, rfl⟩
        rw [List.map_cons, List.nodup_cons] at hnd
        exact hnd.1 (hpa ▸ this)
      rw [lookupKey, if_neg hne]
      exact ih (List.nodup_cons.mp (List.map_cons _ _ _ ▸ hnd)).2 hmem

theorem lookupKey_mapSet_ne (l : List (String × String)) (k v k' : String) (h : k' ≠ k) :
    lookupKey (l.map (fun p => if p.1 = k then (k, v) else p)) k' = lookupKey l k' := by
  induction l with
  | nil => rfl
  | cons p rest ih =>
    by_cases hp : p.1 = k
    · by_cases hk' : p.1 = k'
      · exact absurd (hk' ▸ hp) h
      · simp only [List.map_cons, if_pos hp, lookupKey]
        rw [if_neg (fun hh : k = k' => h hh.symm), if_neg hk']
        exact ih
    · simp only [List.map_cons, if_neg hp, lookupKey]
      by_cases hk : p.1 = k'
      · rw [if_pos hk, if_pos hk]
      · rw [if_neg hk, if_neg hk]
        exact ih

theorem lookupKey_append_single_ne (l : List (String × String)) (k v k' : String)
    (h : k' ≠ k) : lookupKey (l ++ [(k, v)]) k' = lookupKey l k' := by
  induction l with
  | nil =>
    simp only [List.nil_append, lookupKey]
    rw [if_neg (fun hh : k = k' => h hh.symm)]
  | cons p rest ih =>
    simp only [List.cons_append, lookupKey]
    by_cases hk : p.1 = k'
    · rw [if_pos hk, if_pos hk]
    · rw [if_neg hk, if_neg hk]
      exact ih

theorem lookupKey_setKey_ne (l : List (String × String)) (k v k' : String) (h : k' ≠ k) :
    lookupKey (setKey l k v) k' = lookupKey l k' := by
  rw [setKey]
  by_cases hany : l.any (fun p => decide (p.1 = k)) = true
  · rw [if_pos hany]
    exact lookupKey_mapSet_ne l k v k' h
  · rw [if_neg hany]
    exact lookupKey_append_single_ne l k v k' h

theorem rewriteTag_lookup_notin (host : String) (t : Tag) (names : List String) (a : String)
    (hnot : a ∉ names) :
    lookupKey (rewriteTag host t names).attrs a = lookupKey t.attrs a := by
  induction names generalizing t with
  | nil => rfl
  | cons n ns ih =>
    have hstep : rewriteTag host t (n :: ns) =
        rewriteTag host (match lookupKey t.attrs n with
          | some v => { t with attrs := setKey t.attrs n (rewriteVal host v) }
          | none => t) ns := rfl
    rw [hstep, ih _ (fun hm => hnot (List.mem_cons_of_mem n hm))]
    cases hv : lookupKey t.attrs n with
    | none => rfl
    | some v =>
      simp only
      exact lookupKey_setKey_ne t.attrs n (rewriteVal host v) a
        (fun hh => hnot (hh ▸ List.mem_cons_self n ns))

theorem rewriteTag_lookup_mem (host : String) (t : Tag) (names : List String) (a v : String)
    (hnd : names.Nodup) (ha : a ∈ names) (hv : lookupKey t.attrs a = some v) :
    lookupKey (rewriteTag host t names).attrs a = some (rewriteVal host v) := by
  induction names generalizing t with
  | nil => cases ha
  | cons n ns ih =>
    have hstep : rewriteTag host t (n :: ns) =
        rewriteTag host (match lookupKey t.attrs n with
          | some w => { t with attrs := setKey t.attrs n (rewriteVal host w) }
          | none => t) ns := rfl
    rcases List.mem_cons.mp ha with rfl | hmem
    · have hnotin : a ∉ ns := (List.nodup_cons.mp hnd).1
      rw [hstep, hv]
      simp only
      rw [rewriteTag_lookup_notin host _ ns a hnotin]
      show lookupKey (setKey t.attrs a (rewriteVal host v)) a = some (rewriteVal host v)
      exact lookupKey_setKey_self t.attrs a (rewriteVal host v)
    · have hna : n ≠ a := by
        rintro rfl
        exact (List.nodup_cons.mp hnd).1 hmem
      rw [hstep]
      cases hw : lookupKey t.attrs n with
      | none => exact ih _ (List.nodup_cons.mp hnd).2 hmem hv
      | some w =>
        simp only
        refine ih _ (List.nodup_cons.mp hnd).2 hmem ?_
        rw [lookupKey_setKey_ne t.attrs n (rewriteVal host w) a (fun hh => hna hh.symm)]
        exact hv

theorem urlAttrNames_sublist (attrs : List (String × String)) :
    (urlAttrNames attrs).Sublist (attrs.map Prod.fst) := by
  induction attrs with
  | nil => exact List.Sublist.refl _
  | cons p rest ih =>
    obtain ⟨a, v⟩ := p
    simp only [urlAttrNames, List.map_cons]
    by_cases h1 : secureFullmatch v = true
    · rw [if_pos h1]
      exact ih.cons₂ a
    · rw [if_neg h1]
      by_cases h2 : relativeFullmatch v = true
      · rw [if_pos h2]
        exact ih.cons₂ a
      · rw [if_neg h2]
        exact ih.cons a

theorem mem_urlAttrNames (attrs : List (String × String)) (a v : String)
    (hav : (a, v) ∈ attrs)
    (hm : secureFullmatch v = true ∨ relativeFullmatch v = true) :
    a ∈ urlAttrNames attrs := by
  induction attrs with
  | nil => cases hav
  | cons p rest ih =>
    obtain ⟨a', v'⟩ := p
    rcases List.mem_cons.mp hav with heq | hmem
    · obtain ⟨rfl, rfl⟩ := Prod.mk.injEq .. ▸ heq
      simp only [urlAttrNames]
      by_cases h1 : secureFullmatch v = true
      · rw [if_pos h1]
        exact List.mem_cons_self _ _
      · rw [if_neg h1]
        rcases hm with hm | hm
        · exact absurd hm h1
        · rw [if_pos hm]
          exact List.mem_cons_self _ _
    · simp only [urlAttrNames]
      by_cases h1 : secureFullmatch v' = true
      · rw [if_pos h1]
        exact List.mem_cons_of_mem _ (ih hmem)
      · rw [if_neg h1]
        by_cases h2 : relativeFullmatch v' = true
        · rw [if_pos h2]
          exact List.mem_cons_of_mem _ (ih hmem)
        · rw [if_neg h2]
          exact ih hmem

theorem stripScriptTag_attrs (remote host : String) (t : Tag) (cache : InMemoryCache) :
    (stripScriptTag remote host t cache).1.attrs = t.attrs := by
  rw [stripScriptTag]
  split
  · split
    · split
      · rfl
      · rfl
    · rfl
  · rfl

theorem stripScriptBlocks_attrs (remote host : String) (doc : List Tag)
    (cache : InMemoryCache) (i : Nat) (t : Tag) (ht : doc.get? i = some t) :
    ∃ t', (stripScriptBlocks remote host doc cache).1.get? i = some t' ∧
      t'.attrs = t.attrs := by
  induction doc generalizing cache i with
  | nil => simp at ht
  | cons t0 ts ih =>
    cases i with
    | zero =>
      simp only [List.get?] at ht
      injection ht with ht
      subst ht
      exact ⟨_, rfl, stripScriptTag_attrs remote host t0 cache⟩
    | succ n =>
      simp only [List.get?] at ht
      simp only [stripScriptBlocks, List.get?]
      exact ih _ n ht

theorem secure_not_slash (v : String) (hm : secureFullmatch v = true) :
    pyStartsWith v "/" = false := by
  rw [secureFullmatch] at hm
  split at hm
  · next h1 h2 h3 h4 h5 rest heq =>
    rw [pyStartsWith, heq]
    simp only [Bool.and_eq_true, decide_eq_true_eq] at hm
    have hh1 : h1.toLower = 'h' := by
      have hmap := hm.1.1
      rw [show ("https".toList) = ['h', 't', 't', 'p', 's'] from rfl] at hmap
      simp only [List.map_cons, List.map_nil, List.cons.injEq] at hmap
      exact hmap.1
    have hne : h1 ≠ '/' := by
      intro hcontra
      rw [hcontra] at hh1
      exact absurd hh1 (by decide)
    simp [List.isPrefixOf, Ne.symm hne]
  · exact absurd hm (by simp)

theorem relative_slash (v : String) (hm : relativeFullmatch v = true) :
    pyStartsWith v "/" = true := by
  rw [relativeFullmatch] at hm
  split at hm
  · next c rest heq =>
    rw [pyStartsWith, heq]
    simp [List.isPrefixOf]
  · exact absurd hm (by simp)

theorem rewriteVal_of_secure (host v : String) (hm : secureFullmatch v = true) :
    rewriteVal host v = urlunsplit "http" (urlsplit v).netloc (urlsplit v).path
      (urlsplit v).query (urlsplit v).fragment := by
  rw [rewriteVal, if_neg (by simp [secure_not_slash v hm])]

theorem rewriteVal_of_relative (host v : String) (hm : relativeFullmatch v = true) :
    rewriteVal host v = "http://" ++ host ++ v := by
  rw [rewriteVal, if_pos (relative_slash v hm)]

/-- A secure full match and a relative full match are mutually exclusive
(the former starts with a scheme letter, the latter with the separator). -/
theorem secure_not_relative (v : String) (hm : secureFullmatch v = true) :
    relativeFullmatch v = false := by
  cases hr : relativeFullmatch v
  · rfl
  · have h1 := secure_not_slash v hm
    have h2 := relative_slash v hr
    rw [h1] at h2
    exact absurd h2 (by simp)

/-- C5: for every attribute `(a, v)` of every tag of the parsed document
(attribute names unique within a tag, as for a Python dict):
if `v` fully matches the secure-absolute pattern, the corresponding tag of
the rewritten document carries, at `a`, the value reassembled with the
insecure `http` scheme, and the cache records the client together with the
URL's host and normalized path+query; if `v` fully matches the relative
pattern, the tag carries `http://` ++ host ++ v (absolute-insecure on the
current host) and the cache records the relative path+query under the
current host. This holds for every matching attribute, also when one
element has several of them. -/
theorem strip_html_body_attr_rewrite (doc : List Tag) (remote host : String)
    (cache : InMemoryCache) (i : Nat) (t : Tag) (a v : String)
    (ht : doc.get? i = some t)
    (hnd : (t.attrs.map Prod.fst).Nodup)
    (hav : (a, v) ∈ t.attrs) :
    ∃ t', (strip_html_body doc remote host cache).1.get? i = some t' ∧
      (secureFullmatch v = true →
        lookupKey t'.attrs a = some (urlunsplit "http" (urlsplit v).netloc (urlsplit v).path
          (urlsplit v).query (urlsplit v).fragment) ∧
        (strip_html_body doc remote host cache).2.has_url remote (urlsplit v).netloc
          (urlsplit v).pathQuery = true) ∧
      (relativeFullmatch v = true → secureFullmatch v = false →
        lookupKey t'.attrs a = some ("http://" ++ host ++ v) ∧
        (strip_html_body doc remote host cache).2.has_url remote host
          (urlsplit v).pathQuery = true) := by
  have hdoc2 : ((findSecureTags remote host doc cache).1.map
      (fun p => rewriteTag host p.1 p.2)).get? i =
      some (rewriteTag host t (urlAttrNames t.attrs)) := by
    rw [List.get?_map, findSecureTags_get, ht]
    rfl
  have hnames_nodup : (urlAttrNames t.attrs).Nodup :=
    hnd.sublist (urlAttrNames_sublist t.attrs)
  have hlook : lookupKey t.attrs a = some v := lookupKey_of_mem_nodup t.attrs a v hnd hav
  obtain ⟨t', ht', hattrs⟩ := stripScriptBlocks_attrs remote host
    ((findSecureTags remote host doc cache).1.map (fun p => rewriteTag host p.1 p.2))
    (findSecureTags remote host doc cache).2 i
    (rewriteTag host t (urlAttrNames t.attrs)) hdoc2
  refine ⟨t', ht', ?_, ?_⟩
  · intro hm
    constructor
    · rw [hattrs, ← rewriteVal_of_secure host v hm]
      exact rewriteTag_lookup_mem host t (urlAttrNames t.attrs) a v hnames_nodup
        (mem_urlAttrNames t.attrs a v hav (Or.inl hm)) hlook
    · exact has_url_mono
        (cacheLE_stripScriptBlocks remote host _ (findSecureTags remote host doc cache).2)
        (findSecureTags_has_url_secure remote host doc cache i t a v ht hav hm)
  · intro hm hm2
    constructor
    · rw [hattrs, ← rewriteVal_of_relative host v hm]
      exact rewriteTag_lookup_mem host t (urlAttrNames t.attrs) a v hnames_nodup
        (mem_urlAttrNames t.attrs a v hav (Or.inr hm)) hlook
    · exact has_url_mono
        (cacheLE_stripScriptBlocks remote host _ (findSecureTags remote host doc cache).2)
        (findSecureTags_has_url_relative remote host doc cache i t a v ht hav hm hm2)

/-- A tag with two URL attributes, one secure-absolute and one
root-relative. -/
def sampleTag : Tag :=
  { name := "a", attrs := [("href", "https://site.test/login"), ("data-x", "/deep?q=1")],
    text := none }

/-- Witness for C5 at a concrete one-tag document whose single element has
two matching attributes: both are rewritten and both cache entries appear. -/
theorem strip_html_body_attr_rewrite_witness :
    (∃ t', (strip_html_body [sampleTag] "1.2.3.4" "site.test" InMemoryCache.empty).1.get? 0 =
        some t' ∧
      (secureFullmatch "https://site.test/login" = true →
        lookupKey t'.attrs "href" = some (urlunsplit "http"
          (urlsplit "https://site.test/login").netloc (urlsplit "https://site.test/login").path
          (urlsplit "https://site.test/login").query
          (urlsplit "https://site.test/login").fragment) ∧
        (strip_html_body [sampleTag] "1.2.3.4" "site.test" InMemoryCache.empty).2.has_url
          "1.2.3.4" (urlsplit "https://site.test/login").netloc
          (urlsplit "https://site.test/login").pathQuery = true) ∧
      (relativeFullmatch "https://site.test/login" = true →
        secureFullmatch "https://site.test/login" = false →
        lookupKey t'.attrs "href" = some ("http://" ++ "site.test" ++ "https://site.test/login") ∧
        (strip_html_body [sampleTag] "1.2.3.4" "site.test" InMemoryCache.empty).2.has_url
          "1.2.3.4" "site.test" (urlsplit "https://site.test/login").pathQuery = true)) ∧
    (∃ t', (strip_html_body [sampleTag] "1.2.3.4" "site.test" InMemoryCache.empty).1.get? 0 =
        some t' ∧
      (secureFullmatch "/deep?q=1" = true →
        lookupKey t'.attrs "data-x" = some (urlunsplit "http"
          (urlsplit "/deep?q=1").netloc (urlsplit "/deep?q=1").path
          (urlsplit "/deep?q=1").query (urlsplit "/deep?q=1").fragment) ∧
        (strip_html_body [sampleTag] "1.2.3.4" "site.test" InMemoryCache.empty).2.has_url
          "1.2.3.4" (urlsplit "/deep?q=1").netloc (urlsplit "/deep?q=1").pathQuery = true) ∧
      (relativeFullmatch "/deep?q=1" = true → secureFullmatch "/deep?q=1" = false →
        lookupKey t'.attrs "data-x" = some ("http://" ++ "site.test" ++ "/deep?q=1") ∧
        (strip_html_body [sampleTag] "1.2.3.4" "site.test" InMemoryCache.empty).2.has_url
          "1.2.3.4" "site.test" (urlsplit "/deep?q=1").pathQuery = true)) :=
  ⟨strip_html_body_attr_rewrite [sampleTag] "1.2.3.4" "site.test" InMemoryCache.empty 0
      sampleTag "href" "https://site.test/login" (by decide) (by decide) (by decide),
   strip_html_body_attr_rewrite [sampleTag] "1.2.3.4" "site.test" InMemoryCache.empty 0
      sampleTag "data-x" "/deep?q=1" (by decide) (by decide) (by decide)⟩
